import Mathlib

/-!
# Verification of the axeon HTTP server core

A shallow embedding in Lean 4 of the request-dispatch engine of the axeon
repository: the route table (`src/router/mod.rs`), the middleware pipeline
(`src/middleware/mod.rs`), the dispatcher (`src/app.rs`), the query-string
parser (`Application::parse_query`), the error taxonomy (`src/error.rs`),
the response builder (`src/http/response.rs`) and the structured body
decoders (`src/http/request.rs`).

Conventions of the embedding:
* Rust `&str` / `String` values are Lean `String`s; the splitting and
  trimming routines of the source are re-implemented over `List Char`
  (the `data` field of a `String`), mirroring Rust `str::split`,
  `str::trim_end_matches`, etc.
* Rust `HashMap` is modelled as an association list with
  insert-or-overwrite semantics (`alInsert`); iteration order of a
  `HashMap` is arbitrary in Rust, and no theorem below depends on it
  beyond the per-key lookup view.
* `async` handlers and middlewares are modelled as pure functions
  `Request → Except ServerError Response`; the futures of the source are
  sequential per request, so the collapse is semantics-preserving for
  the dispatch-order properties proved here.
* Byte slices (`&[u8]`) are modelled as `List Char` (each entry one
  byte); a Rust panic (out-of-bounds slice / `usize` underflow) is made
  explicit as `Except.error`.
-/

/-! ## String helpers mirroring Rust `str` methods -/

/-- Rust `str::split(sep)` on a character list: always returns at least one
(possibly empty) segment; a separator at either end yields an empty segment. -/
def splitChar (sep : Char) : List Char → List (List Char)
  | [] => [[]]
  | c :: rest =>
    if c = sep then [] :: splitChar sep rest
    else
      match splitChar sep rest with
      | [] => [[c]]
      | s :: ss => (c :: s) :: ss

/-- Rust `str::split(pred)` for a boolean character predicate. -/
def splitPred (p : Char → Bool) : List Char → List (List Char)
  | [] => [[]]
  | c :: rest =>
    if p c then [] :: splitPred p rest
    else
      match splitPred p rest with
      | [] => [[c]]
      | s :: ss => (c :: s) :: ss

/-- Rust `str::trim_end_matches(c)`: remove every trailing occurrence of `c`. -/
def trimEndChar (c : Char) (l : List Char) : List Char :=
  (l.reverse.dropWhile (· = c)).reverse

/-- Rust `str::trim_matches(c)`: remove every leading and trailing occurrence. -/
def trimChar (c : Char) (l : List Char) : List Char :=
  trimEndChar c (l.dropWhile (· = c))

/-- Rust `str::trim`: remove leading and trailing ASCII/Unicode whitespace. -/
def trimSpaces (l : List Char) : List Char :=
  (l.dropWhile Char.isWhitespace).reverse.dropWhile Char.isWhitespace |>.reverse

/-- Rust `str::strip_prefix`: `some rest` when `pre` is an initial segment. -/
def stripPre : List Char → List Char → Option (List Char)
  | [], l => some l
  | _ :: _, [] => none
  | p :: ps, c :: cs => if p = c then stripPre ps cs else none

/-- Rust `str::split_once(c)`: split at the first occurrence of `c`,
returning the pieces before and after it. -/
def splitOnceChar (sep : Char) : List Char → Option (List Char × List Char)
  | [] => none
  | c :: rest =>
    if c = sep then some ([], rest)
    else (splitOnceChar sep rest).map (fun p => (c :: p.1, p.2))

/-- `str::ends_with('/')` specialised to the last character. -/
def endsWithChar (c : Char) (s : String) : Bool :=
  match s.data.getLast? with
  | some c' => c' = c
  | none => false

/-! ## Association lists modelling Rust `HashMap` -/

/-- Insert-or-overwrite, keeping the position of an existing key
(`HashMap::insert` last-write-wins semantics, viewed through lookups). -/
def alInsert {α β : Type} [DecidableEq α] (k : α) (v : β) :
    List (α × β) → List (α × β)
  | [] => [(k, v)]
  | (k', v') :: t => if k' = k then (k, v) :: t else (k', v') :: alInsert k v t

/-- `HashMap::get`. -/
def alFind {α β : Type} [DecidableEq α] (k : α) :
    List (α × β) → Option β
  | [] => none
  | (k', v) :: t => if k' = k then some v else alFind k t

theorem alFind_insert_self {α β : Type} [DecidableEq α]
    (k : α) (v : β) (m : List (α × β)) :
    alFind k (alInsert k v m) = some v := by
  induction m with
  | nil => simp [alInsert, alFind]
  | cons h t ih =>
    obtain ⟨k', v'⟩ := h
    by_cases hk : k' = k
    · simp [alInsert, alFind, hk]
    · simp [alInsert, alFind, hk, ih]

theorem alFind_insert_ne {α β : Type} [DecidableEq α]
    (k k' : α) (v : β) (m : List (α × β)) (h : k' ≠ k) :
    alFind k' (alInsert k v m) = alFind k' m := by
  have hne : ¬ k = k' := fun e => h e.symm
  induction m with
  | nil => simp [alInsert, alFind, hne]
  | cons hd t ih =>
    obtain ⟨k₀, v₀⟩ := hd
    by_cases hk : k₀ = k
    · subst hk
      simp [alInsert, alFind, hne]
    · simp only [alInsert, if_neg hk, alFind]
      by_cases hk' : k₀ = k'
      · simp [hk']
      · simp [hk', ih]

/-! ## Query-string parsing (`Application::parse_query`, src/app.rs) -/

/-- One `k=v` pair as `parse_query` handles it: `pair.split('=')`, the key is
the first piece and the value the second piece (or `""` when there is none).
Anything after a second `=` is in the third piece and is discarded. -/
def parsePair (pair : List Char) : String × String :=
  let ps := splitChar '=' pair
  (String.mk (ps.headD []), String.mk ((ps.drop 1).headD []))

/-- `Application::parse_query`: split the raw query on `&`, drop empty
segments, parse each pair and collect into a map (duplicate keys overwrite). -/
def parseQuery (q : String) : List (String × String) :=
  ((splitChar '&' q.data).filter (· ≠ [])).foldl
    (fun acc pair =>
      let kv := parsePair pair
      alInsert kv.1 kv.2 acc)
    []

theorem splitChar_not_elem (c : Char) (l : List Char) (h : c ∉ l) :
    splitChar c l = [l] := by
  induction l with
  | nil => rfl
  | cons x xs ih =>
    have hx : x ≠ c := fun e => h (e ▸ List.mem_cons_self x xs)
    have hxs : c ∉ xs := fun e => h (List.mem_cons_of_mem x e)
    simp [splitChar, hx, ih hxs]

theorem splitChar_append_sep (c : Char) (k rest : List Char) (h : c ∉ k) :
    splitChar c (k ++ c :: rest) = k :: splitChar c rest := by
  induction k with
  | nil => simp [splitChar]
  | cons x xs ih =>
    have hx : x ≠ c := fun e => h (e ▸ List.mem_cons_self x xs)
    have hxs : c ∉ xs := fun e => h (List.mem_cons_of_mem x e)
    have hne : splitChar c (xs ++ c :: rest) ≠ [] := by
      rw [ih hxs]; exact List.cons_ne_nil _ _
    simp only [List.cons_append, splitChar, if_neg hx, List.append_eq]
    rw [ih hxs]

/-! ## HTTP data model (src/http/request.rs, src/http/response.rs) -/

/-- `Method`: closed enumeration from src/http/request.rs. -/
inductive Method
  | GET | POST | PUT | DELETE | HEAD | CONNECT | OPTIONS | TRACE | PATCH
deriving DecidableEq

/-- `ServerError` (src/error.rs). An `io::Error` is represented by its
display string, the payload of every other variant is the Rust `String`. -/
inductive ServerError
  | IoError (msg : String)
  | ParseError (msg : String)
  | ValidationError (msg : String)
  | NotFound
  | BadRequest (msg : String)
  | Unauthorized (msg : String)
  | Forbidden (msg : String)
  | InternalError (msg : String)
  | Conflict (msg : String)
  | PanicError (msg : String)
  | TooManyRequests
deriving DecidableEq

/-- `ServerError::status_code` (src/error.rs). -/
def ServerError.statusCode : ServerError → Nat
  | .BadRequest _ => 400
  | .Unauthorized _ => 401
  | .Forbidden _ => 403
  | .NotFound => 404
  | .Conflict _ => 409
  | .ParseError _ => 422
  | .ValidationError _ => 422
  | .TooManyRequests => 429
  | .IoError _ => 500
  | .InternalError _ => 500
  | .PanicError _ => 500

/-- `impl Display for ServerError` (src/error.rs). -/
def ServerError.display : ServerError → String
  | .IoError msg => "IO error: " ++ msg
  | .ParseError msg => "Parse error: " ++ msg
  | .ValidationError msg => "Validation error: " ++ msg
  | .NotFound => "Not found"
  | .BadRequest msg => "Bad request: " ++ msg
  | .Unauthorized msg => "Unauthorized: " ++ msg
  | .Forbidden msg => "Forbidden: " ++ msg
  | .Conflict msg => "Conflict: " ++ msg
  | .InternalError msg => "Internal error: " ++ msg
  | .PanicError msg => "Panic: " ++ msg
  | .TooManyRequests => "Too many requests"

/-- `Response` (src/http/response.rs): status, body, headers. -/
structure Response where
  status : Nat
  body : String
  headers : List (String × String)
deriving DecidableEq

/-- `Response::new(status)`. -/
def Response.mkNew (status : Nat) : Response :=
  { status := status, body := "", headers := [] }

/-- `Response::header(name, value)`. -/
def Response.setHeader (r : Response) (name value : String) : Response :=
  { r with headers := alInsert name value r.headers }

/-- `Request` (src/http/request.rs), restricted to the fields the dispatch
engine reads or writes: method, normalized path, query map and the path
parameters bound on a dynamic match. The body, the header map, the typed
`data` sidecar and the plugin handle are never consulted by the routing and
fallback logic under verification. -/
structure Request where
  method : Method
  path : String
  query : List (String × String)
  params : List (String × String)
deriving DecidableEq

/-- A handler (`Box<dyn Handler>`): the `async` call collapsed to a pure
function from the request to a response-or-error. -/
def HandlerFn : Type := Request → Except ServerError Response

/-- A middleware (`Box<dyn Middleware>`): receives the request and the
continuation `Next` for the remainder of the chain. -/
def MiddlewareFn : Type := Request → HandlerFn → Except ServerError Response

/-- `MiddlewareManager::call` (src/middleware/mod.rs): the while-loop walks
`index` from `len` down to `0`, each step wrapping the current continuation
into `Next::new_handler(move |req| middleware.call(req, next))`; this is
exactly a right fold over the middleware vector. -/
def mmCall (ms : List MiddlewareFn) (next : HandlerFn) : HandlerFn :=
  ms.foldr (fun m k => fun r => m r k) next

/-- `Route` (src/router/mod.rs): immutable snapshot of a middleware chain
plus one handler. -/
structure Route where
  middlewares : List MiddlewareFn
  handler : HandlerFn

/-- `Route::handle`: run the chain with the handler as terminal `Next`. -/
def Route.handle (r : Route) (req : Request) : Except ServerError Response :=
  mmCall r.middlewares r.handler req

/-- `Router` (src/router/mod.rs). `routes` maps a normalized path key to a
per-method map; `dynamicRoutes` is the registration-ordered pattern list. -/
structure Router where
  middlewares : List MiddlewareFn
  routes : List (String × List (Method × Route))
  dynamicRoutes : List String

/-- `Router::new()`. -/
def Router.mkNew : Router :=
  { middlewares := [], routes := [], dynamicRoutes := [] }

/-- Rust `str::contains(":")` for the single-character needle `:`. -/
def strHasColon (s : String) : Bool :=
  s.data.contains ':'

/-- Shared insertion step of `Router::add` and `Router::mount`: ensure the
path key exists, record it in `dynamic_routes` when it contains `:`, and
insert the route into the per-method map of the key. -/
def routerInsert (r : Router) (p : String) (method : Method) (route : Route) :
    Router :=
  let dyn := if strHasColon p then r.dynamicRoutes ++ [p] else r.dynamicRoutes
  let mm := (alFind p r.routes).getD []
  { r with
    routes := alInsert p (alInsert method route mm) r.routes
    dynamicRoutes := dyn }

/-- `Router::add` (src/router/mod.rs): strip trailing `/`, map the empty
result to `"/"`, then insert a route capturing the router's current
middleware chain. -/
def Router.add (r : Router) (method : Method) (path : String) (h : HandlerFn) :
    Router :=
  let p := String.mk (trimEndChar '/' path.data)
  let p := if p = "" then "/" else p
  routerInsert r p method { middlewares := r.middlewares, handler := h }

/-- `Router::middleware`. -/
def Router.addMiddleware (r : Router) (m : MiddlewareFn) : Router :=
  { r with middlewares := r.middlewares ++ [m] }

/-- The inner `for (method, handler) in value` loop of `Router::mount`:
insert, at target path `p`, a merged route whose chain is the mounting
router's middlewares `pmw` followed by the sub-route's recorded middlewares
(`self.middlewares.clone().append(handler.middlewares.clone())`). -/
def mountMethodsFold (pmw : List MiddlewareFn) (p : String)
    (ms : List (Method × Route)) (acc : Router) : Router :=
  ms.foldl
    (fun acc2 mr =>
      routerInsert acc2 p mr.1
        { middlewares := pmw ++ mr.2.middlewares
          handler := mr.2.handler })
    acc

/-- The normalized target path of a mounted sub-route:
`(path.to_owned() + &key).trim_end_matches('/')`. -/
def mountTarget (pre k : String) : String :=
  String.mk (trimEndChar '/' (pre ++ k).data)

/-- `Router::mount` (src/router/mod.rs): for every route of the sub-router,
concatenate the prefix with the sub-key, strip trailing `/` (note: unlike
`add`, an all-slash concatenation is NOT mapped back to `"/"`), and insert
the merged routes. -/
def Router.mount (r : Router) (pre : String) (sub : Router) : Router :=
  sub.routes.foldl
    (fun acc kv => mountMethodsFold r.middlewares (mountTarget pre kv.1) kv.2 acc)
    r

/-! ## Dispatcher (src/app.rs) -/

/-- `pattern_part.starts_with(':')`. -/
def segIsParam (p : List Char) : Bool :=
  match p with
  | ':' :: _ => true
  | _ => false

/-- The zip-loop body of `Application::match_dynamic_path`: a segment
starting with `:` binds `pattern_part[1..]` to the path segment
(`HashMap::insert`), any other segment must be literally equal. -/
def matchParts : List (List Char × List Char) → List (String × String) →
    Option (List (String × String))
  | [], acc => some acc
  | (p, q) :: rest, acc =>
    if segIsParam p then
      matchParts rest (alInsert (String.mk p.tail) (String.mk q) acc)
    else if p = q then matchParts rest acc else none

/-- `Application::match_dynamic_path` (src/app.rs): split pattern and path on
`/`, require equal segment counts, then run the zip loop. -/
def matchDynamicPath (pattern path : String) : Option (List (String × String)) :=
  let pp := splitChar '/' pattern.data
  let qq := splitChar '/' path.data
  if pp.length ≠ qq.length then none
  else matchParts (pp.zip qq) []

/-- `Application::handle_head` (src/app.rs): rewrite the method to GET, run
the GET route, and blank the body of a successful response. -/
def handleHead (route : Route) (req : Request) : Except ServerError Response :=
  match route.handle { req with method := Method.GET } with
  | .ok resp => .ok { resp with body := "" }
  | .error e => .error e

/-- `Application::handle_options` (src/app.rs): run the route's middleware
chain with a substituted handler returning an empty `Response::new(200)`. -/
def handleOptions (route : Route) (req : Request) : Except ServerError Response :=
  Route.handle
    { middlewares := route.middlewares
      handler := fun _ => .ok (Response.mkNew 200) }
    req

/-- `Application` restricted to dispatch: the router plus the static-file
collaborator. `handle_static_file` reads the filesystem, so it is abstracted
as a function from the request path to an optional response (`none` models
both "no static dir configured" and "no such file"). -/
structure App where
  router : Router
  staticFile : String → Option Response

/-- The `for dynamic_path in &self.router.dynamic_routes` loop of
`Application::handle`, followed by the static-file fallback and `NotFound`.
Faithful quirks kept from the source: the HEAD fallback does NOT store the
extracted parameters into the request, while the method-match and OPTIONS
branches do; when a matching pattern offers neither the method nor an
applicable GET fallback, the scan continues with later patterns. -/
def dynLoop (app : App) (req : Request) : List String → Except ServerError Response
  | [] =>
    match app.staticFile req.path with
    | some resp => .ok resp
    | none => .error ServerError.NotFound
  | dp :: rest =>
    match matchDynamicPath dp req.path with
    | some params =>
      match alFind dp app.router.routes with
      | some routes =>
        match alFind req.method routes with
        | some route => route.handle { req with params := params }
        | none =>
          if req.method = Method.HEAD then
            match alFind Method.GET routes with
            | some route => handleHead route req
            | none => dynLoop app req rest
          else if req.method = Method.OPTIONS then
            match alFind Method.GET routes with
            | some route => handleOptions route { req with params := params }
            | none => dynLoop app req rest
          else dynLoop app req rest
      | none => dynLoop app req rest
    | none => dynLoop app req rest

/-- `Application::handle` (src/app.rs): exact static lookup and method
dispatch with HEAD/OPTIONS fallback to the path's GET route; on a static
miss (including "path key present but no applicable method"), the dynamic
scan, the static-file collaborator, and finally `NotFound`. -/
def App.handle (app : App) (req : Request) : Except ServerError Response :=
  match alFind req.path app.router.routes with
  | some routes =>
    match alFind req.method routes with
    | some route => route.handle req
    | none =>
      if req.method = Method.HEAD then
        match alFind Method.GET routes with
        | some route => handleHead route req
        | none => dynLoop app req app.router.dynamicRoutes
      else if req.method = Method.OPTIONS then
        match alFind Method.GET routes with
        | some route => handleOptions route req
        | none => dynLoop app req app.router.dynamicRoutes
      else dynLoop app req app.router.dynamicRoutes
  | none => dynLoop app req app.router.dynamicRoutes

/-! ## Lemmas on dynamic matching (claim C1) -/

/-- The names bound by colon segments of a zipped segment-pair list. -/
def colonNames (pairs : List (List Char × List Char)) : List (List Char) :=
  pairs.filterMap (fun pq => if segIsParam pq.1 then some pq.1.tail else none)

/-- The parameter names of a pattern, in segment order. -/
def patternParams (pattern : String) : List (List Char) :=
  (splitChar '/' pattern.data).filterMap
    (fun p => if segIsParam p then some p.tail else none)

theorem matchParts_isSome (pairs : List (List Char × List Char)) :
    ∀ acc, (matchParts pairs acc).isSome = true ↔
      ∀ pq ∈ pairs, segIsParam pq.1 = false → pq.1 = pq.2 := by
  induction pairs with
  | nil => intro acc; simp [matchParts]
  | cons hd rest ih =>
    intro acc
    obtain ⟨p, q⟩ := hd
    by_cases hp : segIsParam p = true
    · simp [matchParts, hp, ih]
    · have hp' : segIsParam p = false := by
        cases hsp : segIsParam p
        · rfl
        · exact absurd hsp hp
      by_cases hpq : p = q
      · subst hpq
        simp [matchParts, hp, ih]
      · simp only [matchParts, if_neg hp, if_neg hpq, Option.isSome_none]
        constructor
        · intro h; cases h
        · intro h
          exact absurd (h (p, q) (List.mem_cons_self _ _) hp') hpq

theorem matchParts_find_notin (pairs : List (List Char × List Char)) :
    ∀ acc params n, matchParts pairs acc = some params →
      n ∉ colonNames pairs →
      alFind (String.mk n) params = alFind (String.mk n) acc := by
  induction pairs with
  | nil =>
    intro acc params n h _
    simp [matchParts] at h
    subst h; rfl
  | cons hd rest ih =>
    intro acc params n h hn
    obtain ⟨p, q⟩ := hd
    by_cases hp : segIsParam p = true
    · have hcn : colonNames ((p, q) :: rest) = p.tail :: colonNames rest := by
        simp [colonNames, List.filterMap_cons, hp]
      rw [hcn] at hn
      have hne : p.tail ≠ n := fun e => hn (e ▸ List.mem_cons_self _ _)
      have hn' : n ∉ colonNames rest := fun e => hn (List.mem_cons_of_mem _ e)
      rw [matchParts, if_pos hp] at h
      rw [ih _ _ _ h hn', alFind_insert_ne]
      intro e
      have hdata : n = p.tail := by injection e
      exact hne hdata.symm
    · have hn' : n ∉ colonNames rest := by
        have hcn : colonNames ((p, q) :: rest) = colonNames rest := by
          simp [colonNames, List.filterMap_cons, hp]
        rw [hcn] at hn; exact hn
      rw [matchParts, if_neg hp] at h
      by_cases hpq : p = q
      · rw [if_pos hpq] at h
        exact ih _ _ _ h hn'
      · rw [if_neg hpq] at h
        cases h

theorem matchParts_find_mono (pairs : List (List Char × List Char)) :
    ∀ acc params k v, matchParts pairs acc = some params →
      alFind k acc = some v → ∃ w, alFind k params = some w := by
  induction pairs with
  | nil =>
    intro acc params k v h hk
    simp [matchParts] at h
    subst h; exact ⟨v, hk⟩
  | cons hd rest ih =>
    intro acc params k v h hk
    obtain ⟨p, q⟩ := hd
    by_cases hp : segIsParam p = true
    · rw [matchParts, if_pos hp] at h
      by_cases he : String.mk p.tail = k
      · subst he
        exact ih _ _ _ _ h (alFind_insert_self _ _ _)
      · refine ih _ _ _ v h ?_
        rw [alFind_insert_ne _ _ _ _ (fun e => he e.symm)]
        exact hk
    · rw [matchParts, if_neg hp] at h
      by_cases hpq : p = q
      · rw [if_pos hpq] at h
        exact ih _ _ _ _ h hk
      · rw [if_neg hpq] at h
        cases h

theorem matchParts_binds_exists (pairs : List (List Char × List Char)) :
    ∀ acc params, matchParts pairs acc = some params →
      ∀ pq ∈ pairs, segIsParam pq.1 = true →
        ∃ w, alFind (String.mk pq.1.tail) params = some w := by
  induction pairs with
  | nil => intro acc params _ pq hm; cases hm
  | cons hd rest ih =>
    intro acc params h pq hm hseg
    obtain ⟨p, q⟩ := hd
    rcases List.mem_cons.mp hm with he | hm'
    · subst he
      rw [matchParts, if_pos hseg] at h
      exact matchParts_find_mono rest _ _ _ _ h (alFind_insert_self _ _ _)
    · by_cases hp : segIsParam p = true
      · rw [matchParts, if_pos hp] at h
        exact ih _ _ h pq hm' hseg
      · rw [matchParts, if_neg hp] at h
        by_cases hpq : p = q
        · rw [if_pos hpq] at h
          exact ih _ _ h pq hm' hseg
        · rw [if_neg hpq] at h
          cases h

theorem matchParts_binds_nodup (pairs : List (List Char × List Char)) :
    ∀ acc params, matchParts pairs acc = some params →
      (colonNames pairs).Nodup →
      ∀ pq ∈ pairs, segIsParam pq.1 = true →
        alFind (String.mk pq.1.tail) params = some (String.mk pq.2) := by
  induction pairs with
  | nil => intro acc params _ _ pq hm; cases hm
  | cons hd rest ih =>
    intro acc params h hnd pq hm hseg
    obtain ⟨p, q⟩ := hd
    by_cases hp : segIsParam p = true
    · have hcn : colonNames ((p, q) :: rest) = p.tail :: colonNames rest := by
        simp [colonNames, List.filterMap_cons, hp]
      rw [hcn, List.nodup_cons] at hnd
      rw [matchParts, if_pos hp] at h
      rcases List.mem_cons.mp hm with he | hm'
      · subst he
        rw [matchParts_find_notin rest _ _ _ h hnd.1]
        exact alFind_insert_self _ _ _
      · exact ih _ _ h hnd.2 pq hm' hseg
    · have hcn : colonNames ((p, q) :: rest) = colonNames rest := by
        simp [colonNames, List.filterMap_cons, hp]
      rw [hcn] at hnd
      rw [matchParts, if_neg hp] at h
      rcases List.mem_cons.mp hm with he | hm'
      · subst he
        exact absurd hseg hp
      · by_cases hpq : p = q
        · rw [if_pos hpq] at h
          exact ih _ _ h hnd pq hm' hseg
        · rw [if_neg hpq] at h
          cases h

theorem colonNames_zip (pp : List (List Char)) :
    ∀ qq : List (List Char), pp.length = qq.length →
      colonNames (pp.zip qq) =
        pp.filterMap (fun p => if segIsParam p then some p.tail else none) := by
  induction pp with
  | nil => intro qq _; simp [colonNames]
  | cons p ps ih =>
    intro qq h
    cases qq with
    | nil => cases h
    | cons q qs =>
      have h' : ps.length = qs.length := by
        simpa using h
      by_cases hp : segIsParam p = true
      · simp [colonNames, List.zip_cons_cons, List.filterMap_cons, hp] at *
        exact ih qs h'
      · simp [colonNames, List.zip_cons_cons, List.filterMap_cons, hp] at *
        exact ih qs h'

theorem dynLoop_append_none (app : App) (req : Request) (rest : List String) :
    ∀ pre : List String, (∀ p ∈ pre, matchDynamicPath p req.path = none) →
      dynLoop app req (pre ++ rest) = dynLoop app req rest := by
  intro pre
  induction pre with
  | nil => intro _; rfl
  | cons p ps ih =>
    intro h
    have hp := h p (List.mem_cons_self _ _)
    rw [List.cons_append, dynLoop, hp]
    exact ih (fun x hx => h x (List.mem_cons_of_mem _ hx))

/-- Concrete handler used to witness the C1 dispatch conjunct. -/
def c1Handler : HandlerFn := fun req =>
  .ok { status := 200, body := (alFind "id" req.params).getD "?", headers := [] }

/-- Concrete application with one dynamic GET route `/users/:id`. -/
def c1App : App :=
  { router := Router.add Router.mkNew Method.GET "/users/:id" c1Handler
    staticFile := fun _ => none }

/-- C1: a dynamic pattern matches a path iff the `/`-split segment counts
are equal and every non-colon pattern segment equals the corresponding path
segment; on a match every colon segment's name is bound in the parameter
map, and (for pairwise distinct parameter names) bound to the corresponding
path segment; `/users/:id` matched against `/users/42` yields `{id: "42"}`
while `/users/42/extra` does not match; the dispatcher scans patterns in
registration order and dispatches via the first matching pattern. -/
theorem c1_dynamic_route_matching :
    (∀ pattern path : String,
      (matchDynamicPath pattern path).isSome = true ↔
        ((splitChar '/' pattern.data).length = (splitChar '/' path.data).length ∧
         ∀ pq ∈ (splitChar '/' pattern.data).zip (splitChar '/' path.data),
           segIsParam pq.1 = false → pq.1 = pq.2)) ∧
    (∀ pattern path params, matchDynamicPath pattern path = some params →
      ∀ pq ∈ (splitChar '/' pattern.data).zip (splitChar '/' path.data),
        segIsParam pq.1 = true →
          (∃ v, alFind (String.mk pq.1.tail) params = some v) ∧
          ((patternParams pattern).Nodup →
            alFind (String.mk pq.1.tail) params = some (String.mk pq.2))) ∧
    matchDynamicPath "/users/:id" "/users/42" = some [("id", "42")] ∧
    matchDynamicPath "/users/:id" "/users/42/extra" = none ∧
    (∀ (app : App) (req : Request) (pre : List String) (dp : String)
       (post : List String) params routes route,
      app.router.dynamicRoutes = pre ++ dp :: post →
      (∀ p ∈ pre, matchDynamicPath p req.path = none) →
      matchDynamicPath dp req.path = some params →
      alFind dp app.router.routes = some routes →
      alFind req.method routes = some route →
      alFind req.path app.router.routes = none →
      app.handle req = route.handle { req with params := params }) := by
  refine ⟨?_, ?_, ?_, ?_, ?_⟩
  · intro pattern path
    by_cases hlen :
        (splitChar '/' pattern.data).length = (splitChar '/' path.data).length
    · simp only [matchDynamicPath]
      rw [if_neg (not_not_intro hlen)]
      simp [matchParts_isSome, hlen]
    · simp only [matchDynamicPath]
      rw [if_pos hlen]
      simp [hlen]
  · intro pattern path params h pq hm hseg
    by_cases hlen :
        (splitChar '/' pattern.data).length = (splitChar '/' path.data).length
    · simp only [matchDynamicPath] at h
      rw [if_neg (not_not_intro hlen)] at h
      refine ⟨matchParts_binds_exists _ _ _ h pq hm hseg, ?_⟩
      intro hnd
      refine matchParts_binds_nodup _ _ _ h ?_ pq hm hseg
      rw [colonNames_zip _ _ hlen]
      exact hnd
    · simp only [matchDynamicPath] at h
      rw [if_pos hlen] at h
      cases h
  · decide
  · decide
  · intro app req pre dp post params routes route hdyn hpre hmatch hroutes
      hmethod hstat
    have hskip := dynLoop_append_none app req (dp :: post) pre hpre
    simp only [App.handle, hstat]
    rw [hdyn, hskip]
    simp only [dynLoop, hmatch, hroutes, hmethod]

/-- Witness for C1: the dispatch conjunct applied to the concrete
application `c1App` and the request `GET /users/42`. -/
theorem c1_dynamic_route_matching_witness :
    App.handle c1App
        { method := Method.GET, path := "/users/42", query := [], params := [] } =
      Route.handle { middlewares := [], handler := c1Handler }
        { method := Method.GET, path := "/users/42", query := [],
          params := [("id", "42")] } := by
  have h := c1_dynamic_route_matching
  refine h.2.2.2.2 c1App _ [] "/users/:id" [] [("id", "42")]
      [(Method.GET, { middlewares := [], handler := c1Handler })]
      { middlewares := [], handler := c1Handler } ?_ ?_ ?_ ?_ ?_ ?_
  · rfl
  · intro p hp; cases hp
  · rfl
  · rfl
  · rfl
  · rfl

/-! ## Middleware composition (claim C2) -/

/-- A middleware that passes through, appending a marker to the path so the
execution order is observable. -/
def c2Trace (name : String) : MiddlewareFn :=
  fun r k => k { r with path := r.path ++ name }

/-- A middleware that returns an error without invoking its continuation. -/
def c2Short : MiddlewareFn :=
  fun _ _ => .error (ServerError.Unauthorized "nope")

/-- Terminal handler echoing the (marker-annotated) path. -/
def c2Handler : HandlerFn :=
  fun r => .ok { status := 200, body := r.path, headers := [] }

/-- A deliberately different handler, to exhibit handler-independence. -/
def c2HandlerAlt : HandlerFn :=
  fun _ => .ok { status := 500, body := "SHOULD NOT RUN", headers := [] }

/-- A concrete request. -/
def c2Req : Request :=
  { method := Method.GET, path := "/", query := [], params := [] }

/-- C2: `MiddlewareManager::call` composes the middleware list as an onion —
the head middleware runs first and outermost, the continuation handed to a
middleware runs the remainder of the list (the empty remainder runs the
terminal handler), and a middleware that never invokes its continuation
makes the result independent of every later middleware and of the handler
(so neither ever runs). -/
theorem c2_middleware_onion :
    (∀ (m : MiddlewareFn) (ms : List MiddlewareFn) (next : HandlerFn)
       (req : Request),
      mmCall (m :: ms) next req = m req (mmCall ms next)) ∧
    (∀ (next : HandlerFn) (req : Request), mmCall [] next req = next req) ∧
    (∀ (pre : List MiddlewareFn) (m : MiddlewareFn)
       (post post' : List MiddlewareFn) (h h' : HandlerFn) (req : Request),
      (∀ r k k', m r k = m r k') →
      mmCall (pre ++ m :: post) h req = mmCall (pre ++ m :: post') h' req) := by
  refine ⟨fun _ _ _ _ => rfl, fun _ _ => rfl, ?_⟩
  intro pre
  induction pre with
  | nil =>
    intro m post post' h h' req hshort
    exact hshort req (mmCall post h) (mmCall post' h')
  | cons p ps ih =>
    intro m post post' h h' req hshort
    show p req (mmCall (ps ++ m :: post) h) = p req (mmCall (ps ++ m :: post') h')
    congr 1
    funext r
    exact ih m post post' h h' r hshort

/-- Witness for C2: with the short-circuiting middleware in the middle, the
result is identical whether the tail middleware and handler are present or
replaced, and equals the middleware's own error. -/
theorem c2_middleware_onion_witness :
    mmCall [c2Trace "A", c2Short, c2Trace "B"] c2Handler c2Req =
      mmCall [c2Trace "A", c2Short] c2HandlerAlt c2Req ∧
    mmCall [c2Trace "A", c2Short, c2Trace "B"] c2Handler c2Req =
      .error (ServerError.Unauthorized "nope") :=
  ⟨c2_middleware_onion.2.2 [c2Trace "A"] c2Short [c2Trace "B"] [] c2Handler
      c2HandlerAlt c2Req (fun _ _ _ => rfl),
    rfl⟩

/-! ## Synthesized HEAD and OPTIONS on static routes (claim C4) -/

/-- A response-decorating middleware, to observe that the GET chain runs. -/
def c4Mw : MiddlewareFn :=
  fun r k =>
    match k r with
    | .ok resp => .ok { resp with headers := alInsert "x-mw" "1" resp.headers }
    | .error e => .error e

/-- The registered GET handler of the witness application. -/
def c4Handler : HandlerFn :=
  fun _ => .ok { status := 201, body := "BODY", headers := [("h", "v")] }

/-- Application with one GET route `/p` behind one middleware. -/
def c4App : App :=
  { router := Router.add (Router.addMiddleware Router.mkNew c4Mw) Method.GET
      "/p" c4Handler
    staticFile := fun _ => none }

/-- HEAD request to the witness application. -/
def c4ReqHead : Request :=
  { method := Method.HEAD, path := "/p", query := [], params := [] }

/-- OPTIONS request to the witness application. -/
def c4ReqOpt : Request :=
  { method := Method.OPTIONS, path := "/p", query := [], params := [] }

/-- C4: on a static path with a GET route but no route for the request's
method, a HEAD request yields exactly the GET route's status and headers
with an empty body (errors pass through), and an OPTIONS request runs the
GET route's middleware chain around a substituted handler returning the
empty `Response::new(200)` — an expression in which the registered GET
handler does not occur, so it never runs. -/
theorem c4_head_options_fallback :
    ∀ (app : App) (req : Request) routes groute,
      alFind req.path app.router.routes = some routes →
      alFind req.method routes = none →
      alFind Method.GET routes = some groute →
      ((req.method = Method.HEAD →
        (∀ resp, groute.handle { req with method := Method.GET } = .ok resp →
          app.handle req =
            .ok { status := resp.status, body := "", headers := resp.headers }) ∧
        (∀ e, groute.handle { req with method := Method.GET } = .error e →
          app.handle req = .error e)) ∧
      (req.method = Method.OPTIONS →
        app.handle req =
          mmCall groute.middlewares (fun _ => .ok (Response.mkNew 200)) req)) := by
  intro app req routes groute hroutes hmethod hget
  constructor
  · intro hhead
    constructor
    · intro resp hresp
      simp only [App.handle, hroutes, hmethod]
      simp only [hhead, if_true]
      simp only [hget]
      simp only [handleHead, hresp]
    · intro e herr
      simp only [App.handle, hroutes, hmethod]
      simp only [hhead, if_true]
      simp only [hget]
      simp only [handleHead, herr]
  · intro hopt
    simp only [App.handle, hroutes, hmethod]
    simp only [hopt, if_true]
    simp only [hget]
    rfl

/-- Witness for C4: HEAD and OPTIONS on `/p` of the concrete application. -/
theorem c4_head_options_fallback_witness :
    App.handle c4App c4ReqHead =
      .ok { status := 201, body := "", headers := [("h", "v"), ("x-mw", "1")] } ∧
    App.handle c4App c4ReqOpt =
      .ok { status := 200, body := "", headers := [("x-mw", "1")] } := by
  have h1 := c4_head_options_fallback c4App c4ReqHead
    [(Method.GET, { middlewares := [c4Mw], handler := c4Handler })]
    { middlewares := [c4Mw], handler := c4Handler } rfl rfl rfl
  have h2 := c4_head_options_fallback c4App c4ReqOpt
    [(Method.GET, { middlewares := [c4Mw], handler := c4Handler })]
    { middlewares := [c4Mw], handler := c4Handler } rfl rfl rfl
  constructor
  · exact (h1.1 rfl).1
      { status := 201, body := "BODY", headers := [("h", "v"), ("x-mw", "1")] }
      rfl
  · rw [h2.2 rfl]
    rfl

/-! ## HEAD/OPTIONS fallback on dynamic routes (claim C5) -/

/-- GET handler that reports the bound `:id` parameter in a header (headers
survive `handle_head`, the body does not). -/
def c5Handler : HandlerFn :=
  fun req =>
    .ok { status := 200, body := "B"
          headers := [("x-id", (alFind "id" req.params).getD "none")] }

/-- Application with one dynamic GET route `/u/:id`. -/
def c5App : App :=
  { router := Router.add Router.mkNew Method.GET "/u/:id" c5Handler
    staticFile := fun _ => none }

/-- HEAD request for `/u/7`. -/
def c5ReqHead : Request :=
  { method := Method.HEAD, path := "/u/7", query := [], params := [] }

/-- OPTIONS request for `/u/9`. -/
def c5ReqOpt : Request :=
  { method := Method.OPTIONS, path := "/u/9", query := [], params := [] }

/-- C5 counterexample: on the dynamic pattern `/u/:id` with only a GET
route, a HEAD request for `/u/7` reaches the GET chain with the request's
ORIGINAL (empty) parameter map — the handler sees no `id` binding — so the
claim that extracted parameters are bound before the fallback chain runs is
false for HEAD. -/
theorem c5_head_param_binding_counterexample :
    App.handle c5App c5ReqHead =
      .ok { status := 200, body := "", headers := [("x-id", "none")] } ∧
    ([("x-id", "none")] : List (String × String)) ≠ [("x-id", "7")] :=
  ⟨rfl, by decide⟩

/-- C5 (amended): on a dynamic-pattern match whose method has no route, the
HEAD fallback reruns the GET route's chain with the method rewritten to GET
but the request's original parameter map (the extracted parameters are NOT
bound), while the OPTIONS fallback binds the extracted parameters into the
request before running the GET route's middleware chain around the
substituted empty-200 handler. -/
theorem c5_dynamic_fallback_params :
    ∀ (app : App) (req : Request) (pre : List String) (dp : String)
      (post : List String) params routes groute,
      alFind req.path app.router.routes = none →
      app.router.dynamicRoutes = pre ++ dp :: post →
      (∀ p ∈ pre, matchDynamicPath p req.path = none) →
      matchDynamicPath dp req.path = some params →
      alFind dp app.router.routes = some routes →
      alFind req.method routes = none →
      alFind Method.GET routes = some groute →
      ((req.method = Method.HEAD →
        app.handle req =
          (match groute.handle { req with method := Method.GET } with
           | .ok resp => .ok { resp with body := "" }
           | .error e => .error e)) ∧
      (req.method = Method.OPTIONS →
        app.handle req =
          mmCall groute.middlewares (fun _ => .ok (Response.mkNew 200))
            { req with params := params })) := by
  intro app req pre dp post params routes groute hstat hdyn hpre hmatch
    hroutes hmethod hget
  have hskip := dynLoop_append_none app req (dp :: post) pre hpre
  constructor
  · intro hhead
    simp only [App.handle, hstat]
    rw [hdyn, hskip]
    simp only [dynLoop, hmatch, hroutes, hmethod]
    simp only [hhead, if_true]
    simp only [hget]
    rfl
  · intro hopt
    simp only [App.handle, hstat]
    rw [hdyn, hskip]
    simp only [dynLoop, hmatch, hroutes, hmethod]
    simp only [hopt, if_true]
    simp only [hget]
    rfl

/-- Witness for the amended C5: HEAD `/u/7` and OPTIONS `/u/9` against the
concrete single-route application. -/
theorem c5_dynamic_fallback_params_witness :
    App.handle c5App c5ReqHead =
      (match Route.handle { middlewares := [], handler := c5Handler }
          { c5ReqHead with method := Method.GET } with
       | .ok resp => .ok { resp with body := "" }
       | .error e => .error e) ∧
    App.handle c5App c5ReqOpt =
      mmCall [] (fun _ => .ok (Response.mkNew 200))
        { c5ReqOpt with params := [("id", "9")] } := by
  have h1 := c5_dynamic_fallback_params c5App c5ReqHead [] "/u/:id" []
    [("id", "7")] [(Method.GET, { middlewares := [], handler := c5Handler })]
    { middlewares := [], handler := c5Handler }
    rfl rfl (fun p hp => absurd hp (List.not_mem_nil p)) rfl rfl rfl rfl
  have h2 := c5_dynamic_fallback_params c5App c5ReqOpt [] "/u/:id" []
    [("id", "9")] [(Method.GET, { middlewares := [], handler := c5Handler })]
    { middlewares := [], handler := c5Handler }
    rfl rfl (fun p hp => absurd hp (List.not_mem_nil p)) rfl rfl rfl rfl
  exact ⟨h1.1 rfl, h2.2 rfl⟩

/-! ## Mount ordering lemmas (claim C3) -/

theorem routerInsert_find_self (r : Router) (p : String) (m : Method)
    (route : Route) :
    alFind p (routerInsert r p m route).routes =
      some (alInsert m route ((alFind p r.routes).getD [])) := by
  simp [routerInsert, alFind_insert_self]

theorem routerInsert_find_other (r : Router) (p p' : String) (m : Method)
    (route : Route) (h : p' ≠ p) :
    alFind p' (routerInsert r p m route).routes = alFind p' r.routes := by
  simp [routerInsert, alFind_insert_ne _ _ _ _ h]

theorem mountMethodsFold_find_other (pmw : List MiddlewareFn) (p : String)
    (ms : List (Method × Route)) :
    ∀ (acc : Router) (p' : String), p' ≠ p →
      alFind p' (mountMethodsFold pmw p ms acc).routes = alFind p' acc.routes := by
  induction ms with
  | nil => intro acc p' _; rfl
  | cons mr rest ih =>
    intro acc p' h
    show alFind p' (mountMethodsFold pmw p rest _).routes = _
    rw [ih _ p' h, routerInsert_find_other _ _ _ _ _ h]

theorem mountMethodsFold_keeps (pmw : List MiddlewareFn) (p : String)
    (ms : List (Method × Route)) :
    ∀ (acc : Router) (m : Method) (v : Route) mm,
      (∀ mr ∈ ms, mr.1 ≠ m) →
      alFind p acc.routes = some mm → alFind m mm = some v →
      ∃ mm', alFind p (mountMethodsFold pmw p ms acc).routes = some mm' ∧
        alFind m mm' = some v := by
  induction ms with
  | nil => intro acc m v mm _ hp hm; exact ⟨mm, hp, hm⟩
  | cons mr rest ih =>
    intro acc m v mm hne hp hm
    have hne0 : mr.1 ≠ m := hne mr (List.mem_cons_self _ _)
    have hstep : alFind p (routerInsert acc p mr.1
        { middlewares := pmw ++ mr.2.middlewares, handler := mr.2.handler }).routes =
        some (alInsert mr.1
          { middlewares := pmw ++ mr.2.middlewares, handler := mr.2.handler } mm) := by
      rw [routerInsert_find_self, hp]
      rfl
    refine ih _ m v _ (fun x hx => hne x (List.mem_cons_of_mem _ hx)) hstep ?_
    rw [alFind_insert_ne _ _ _ _ (fun e => hne0 (e.symm))]
    exact hm

theorem mountMethodsFold_find (pmw : List MiddlewareFn) (p : String)
    (ms : List (Method × Route)) :
    ∀ (acc : Router) (m : Method) (route : Route),
      (ms.map Prod.fst).Nodup → (m, route) ∈ ms →
      ∃ mm', alFind p (mountMethodsFold pmw p ms acc).routes = some mm' ∧
        alFind m mm' =
          some { middlewares := pmw ++ route.middlewares
                 handler := route.handler } := by
  induction ms with
  | nil => intro acc m route _ hmem; cases hmem
  | cons mr rest ih =>
    intro acc m route hnd hmem
    rw [List.map_cons, List.nodup_cons] at hnd
    rcases List.mem_cons.mp hmem with he | hm'
    · subst he
      have hner : ∀ x ∈ rest, x.1 ≠ m := by
        intro x hx e
        have hmem2 : x.1 ∈ rest.map Prod.fst := List.mem_map_of_mem Prod.fst hx
        rw [e] at hmem2
        exact hnd.1 hmem2
      have hstep := routerInsert_find_self acc p m
        { middlewares := pmw ++ route.middlewares, handler := route.handler }
      have hmm := alFind_insert_self m
        { middlewares := pmw ++ route.middlewares, handler := route.handler }
        ((alFind p acc.routes).getD [])
      exact mountMethodsFold_keeps pmw p rest _ m _ _ hner hstep hmm
    · exact ih _ m route hnd.2 hm'

theorem mountFold_keeps (pmw : List MiddlewareFn) (pre : String)
    (entries : List (String × List (Method × Route))) :
    ∀ (acc : Router) (t : String),
      (∀ kv ∈ entries, mountTarget pre kv.1 ≠ t) →
      alFind t (entries.foldl
        (fun a kv => mountMethodsFold pmw (mountTarget pre kv.1) kv.2 a)
        acc).routes = alFind t acc.routes := by
  induction entries with
  | nil => intro acc t _; rfl
  | cons kv rest ih =>
    intro acc t h
    rw [List.foldl_cons]
    rw [ih _ t (fun x hx => h x (List.mem_cons_of_mem _ hx)),
      mountMethodsFold_find_other _ _ _ _ _
        (fun e => h kv (List.mem_cons_self _ _) e.symm)]

theorem mountFold_find (pmw : List MiddlewareFn) (pre : String)
    (entries : List (String × List (Method × Route))) :
    ∀ (acc : Router) (k : String) (mmap : List (Method × Route))
      (m : Method) (route : Route),
      (entries.map (fun kv => mountTarget pre kv.1)).Nodup →
      (k, mmap) ∈ entries →
      (mmap.map Prod.fst).Nodup →
      (m, route) ∈ mmap →
      ∃ mm', alFind (mountTarget pre k)
          (entries.foldl
            (fun a kv => mountMethodsFold pmw (mountTarget pre kv.1) kv.2 a)
            acc).routes = some mm' ∧
        alFind m mm' =
          some { middlewares := pmw ++ route.middlewares
                 handler := route.handler } := by
  induction entries with
  | nil => intro acc k mmap m route _ hmem; cases hmem
  | cons kv rest ih =>
    intro acc k mmap m route hnd hmem hndm hmr
    rw [List.map_cons, List.nodup_cons] at hnd
    rw [List.foldl_cons]
    rcases List.mem_cons.mp hmem with he | hm'
    · subst he
      obtain ⟨mm', hfind, hmm⟩ :=
        mountMethodsFold_find pmw (mountTarget pre k) mmap acc m route hndm hmr
      have hner : ∀ kv' ∈ rest, mountTarget pre kv'.1 ≠ mountTarget pre k := by
        intro kv' hkv' e
        have hmem2 : mountTarget pre kv'.1 ∈
            rest.map (fun kv => mountTarget pre kv.1) :=
          List.mem_map_of_mem _ hkv'
        rw [e] at hmem2
        exact hnd.1 hmem2
      rw [mountFold_keeps pmw pre rest _ _ hner]
      exact ⟨mm', hfind, hmm⟩
    · exact ih _ k mmap m route hnd.2 hm' hndm hmr

/-! ## Mount middleware ordering (claim C3) -/

/-- Parent middleware, appending a marker `P` to the request path. -/
def c3ParentMw : MiddlewareFn :=
  fun r k => k { r with path := r.path ++ "P" }

/-- Sub-router middleware, appending a marker `S` to the request path. -/
def c3SubMw : MiddlewareFn :=
  fun r k => k { r with path := r.path ++ "S" }

/-- Sub-router handler echoing the annotated path. -/
def c3Handler : HandlerFn :=
  fun r => .ok { status := 200, body := r.path, headers := [] }

/-- The sub-router: middleware `S` and route `GET /ping`. -/
def c3Sub : Router :=
  Router.add (Router.addMiddleware Router.mkNew c3SubMw) Method.GET "/ping"
    c3Handler

/-- The mounting router, with its own middleware `P`. -/
def c3Parent : Router :=
  Router.addMiddleware Router.mkNew c3ParentMw

/-- The application obtained by mounting the sub-router at `/api`. -/
def c3MountedApp : App :=
  { router := Router.mount c3Parent "/api" c3Sub
    staticFile := fun _ => none }

/-- GET request for the mounted route. -/
def c3Req : Request :=
  { method := Method.GET, path := "/api/ping", query := [], params := [] }

/-- C3: mounting a sub-router at a prefix inserts, for each sub-route, a
merged route at the re-normalized concatenated path whose middleware chain
is exactly the mounting router's chain followed by the chain recorded in
the sub-route (the hypotheses say the normalized targets of the sub-router's
entries are pairwise distinct and each per-method map has distinct methods —
both hold for any table built by `Router::add`); concretely, mounting a
sub-route `/ping` at `/api` makes `GET /api/ping` resolvable and runs the
mounting router's middleware before the sub-router's. -/
theorem c3_mount_middleware_ordering :
    (∀ (r : Router) (pre : String) (sub : Router) (k : String)
       (mmap : List (Method × Route)) (m : Method) (route : Route),
      (sub.routes.map (fun kv => mountTarget pre kv.1)).Nodup →
      (k, mmap) ∈ sub.routes →
      (mmap.map Prod.fst).Nodup →
      (m, route) ∈ mmap →
      ∃ mm', alFind (mountTarget pre k) (Router.mount r pre sub).routes =
          some mm' ∧
        alFind m mm' =
          some { middlewares := r.middlewares ++ route.middlewares
                 handler := route.handler }) ∧
    App.handle c3MountedApp c3Req =
      .ok { status := 200, body := "/api/pingPS", headers := [] } := by
  constructor
  · intro r pre sub k mmap m route hnd hmem hndm hmr
    exact mountFold_find r.middlewares pre sub.routes r k mmap m route
      hnd hmem hndm hmr
  · rfl

/-- Witness for C3: the general conjunct applied to the concrete mounted
router — the merged route at `/api/ping` carries the parent middleware
followed by the sub middleware, in that order. -/
theorem c3_mount_middleware_ordering_witness :
    ∃ mm', alFind "/api/ping" (Router.mount c3Parent "/api" c3Sub).routes =
        some mm' ∧
      alFind Method.GET mm' =
        some { middlewares := [c3ParentMw, c3SubMw], handler := c3Handler } := by
  have h := c3_mount_middleware_ordering.1 c3Parent "/api" c3Sub "/ping"
    [(Method.GET, { middlewares := [c3SubMw], handler := c3Handler })]
    Method.GET { middlewares := [c3SubMw], handler := c3Handler }
    (by decide) (List.mem_singleton.mpr rfl) (by decide)
    (List.mem_singleton.mpr rfl)
  exact h

/-! ## Key normalization (claim C6) -/

theorem mem_alInsert {α β : Type} [DecidableEq α] (k : α) (v : β)
    (m : List (α × β)) :
    ∀ kv ∈ alInsert k v m, kv.1 = k ∨ kv ∈ m := by
  induction m with
  | nil =>
    intro kv hkv
    rcases List.mem_singleton.mp hkv with rfl
    exact Or.inl rfl
  | cons hd t ih =>
    intro kv hkv
    obtain ⟨k', v'⟩ := hd
    by_cases hk : k' = k
    · rw [alInsert, if_pos hk] at hkv
      rcases List.mem_cons.mp hkv with rfl | hm
      · exact Or.inl rfl
      · exact Or.inr (List.mem_cons_of_mem _ hm)
    · rw [alInsert, if_neg hk] at hkv
      rcases List.mem_cons.mp hkv with rfl | hm
      · exact Or.inr (List.mem_cons_self _ _)
      · rcases ih kv hm with h1 | h2
        · exact Or.inl h1
        · exact Or.inr (List.mem_cons_of_mem _ h2)

theorem mem_routerInsert (r : Router) (p : String) (m : Method) (route : Route) :
    ∀ kv ∈ (routerInsert r p m route).routes, kv.1 = p ∨ kv ∈ r.routes := by
  intro kv hkv
  exact mem_alInsert p _ r.routes kv hkv

theorem mem_mountMethodsFold (pmw : List MiddlewareFn) (p : String)
    (ms : List (Method × Route)) :
    ∀ (acc : Router) kv, kv ∈ (mountMethodsFold pmw p ms acc).routes →
      kv.1 = p ∨ kv ∈ acc.routes := by
  induction ms with
  | nil => intro acc kv hkv; exact Or.inr hkv
  | cons mr rest ih =>
    intro acc kv hkv
    rcases ih _ kv hkv with h1 | h2
    · exact Or.inl h1
    · exact mem_routerInsert _ _ _ _ kv h2

theorem mem_mountFold (pmw : List MiddlewareFn) (pre : String)
    (entries : List (String × List (Method × Route))) :
    ∀ (acc : Router) kv,
      kv ∈ (entries.foldl
        (fun a kv' => mountMethodsFold pmw (mountTarget pre kv'.1) kv'.2 a)
        acc).routes →
      (∃ k', kv.1 = mountTarget pre k') ∨ kv ∈ acc.routes := by
  induction entries with
  | nil => intro acc kv hkv; exact Or.inr hkv
  | cons e rest ih =>
    intro acc kv hkv
    rw [List.foldl_cons] at hkv
    rcases ih _ kv hkv with h1 | h2
    · exact Or.inl h1
    · rcases mem_mountMethodsFold _ _ _ _ kv h2 with h3 | h4
      · exact Or.inl ⟨e.1, h3⟩
      · exact Or.inr h4

theorem dropWhile_head_false (p : Char → Bool) :
    ∀ (l : List Char) (x : Char), (l.dropWhile p).head? = some x → p x = false := by
  intro l
  induction l with
  | nil => intro x h; cases h
  | cons c t ih =>
    intro x h
    by_cases hp : p c = true
    · rw [List.dropWhile_cons_of_pos hp] at h
      exact ih x h
    · have hp' : p c = false := by
        cases hc : p c
        · rfl
        · exact absurd hc hp
      rw [List.dropWhile_cons_of_neg hp] at h
      rw [List.head?_cons] at h
      injection h with hx
      rw [← hx]
      exact hp'

theorem trimEnd_no_trailing (l : List Char) :
    endsWithChar '/' (String.mk (trimEndChar '/' l)) = false := by
  show (match (trimEndChar '/' l).getLast? with
        | some c' => decide (c' = '/')
        | none => false) = false
  rw [trimEndChar, List.getLast?_reverse]
  cases hh : (l.reverse.dropWhile (· = '/')).head? with
  | none => rfl
  | some x =>
    have := dropWhile_head_false (· = '/') l.reverse x hh
    simpa using this

/-- The normalized-key invariant of the claim: a static map key is the root
`"/"` or carries no trailing slash. -/
def routerInv (r : Router) : Prop :=
  ∀ kv ∈ r.routes, kv.1 = "/" ∨ endsWithChar '/' kv.1 = false

/-- Handler for the C6 counterexample router. -/
def c6Handler : HandlerFn := fun _ => .ok (Response.mkNew 200)

/-- Sub-router with a root route (key normalized to `"/"` by `add`). -/
def c6Sub : Router := Router.add Router.mkNew Method.GET "/" c6Handler

/-- C6 counterexample: mounting a sub-router whose table holds the root key
`"/"` at prefix `"/"` concatenates to `"//"`, which `mount` trims to the
EMPTY key `""` — the route is stored under `""`, not re-normalized to the
root key `"/"` as the claim states. -/
theorem c6_normalization_counterexample :
    alFind "" (Router.mount Router.mkNew "/" c6Sub).routes =
      some [(Method.GET, { middlewares := [], handler := c6Handler })] ∧
    alFind "/" (Router.mount Router.mkNew "/" c6Sub).routes = none :=
  ⟨rfl, rfl⟩

/-- C6 (amended): after any sequence of `register`/`mount` operations every
static key is the root `"/"` or has no trailing slash; `register` stores a
path normalizing to empty as the root key `"/"` and never stores the empty
key, but `mount` only strips trailing slashes — an all-slash concatenation
of prefix and sub-path is stored under the empty key `""`, not `"/"`. -/
theorem c6_key_normalization :
    routerInv Router.mkNew ∧
    (∀ (r : Router) (m : Method) (path : String) (h : HandlerFn),
      routerInv r → routerInv (Router.add r m path h)) ∧
    (∀ (r : Router) (m : Method) (path : String) (h : HandlerFn),
      ∀ kv ∈ (Router.add r m path h).routes,
        kv ∈ r.routes ∨
          (kv.1 ≠ "" ∧ (kv.1 = "/" ∨ endsWithChar '/' kv.1 = false))) ∧
    (∀ (r : Router) (pre : String) (sub : Router),
      routerInv r → routerInv (Router.mount r pre sub)) ∧
    alFind "" (Router.mount Router.mkNew "/" c6Sub).routes =
      some [(Method.GET, { middlewares := [], handler := c6Handler })] := by
  refine ⟨?_, ?_, ?_, ?_, rfl⟩
  · intro kv hkv; cases hkv
  · intro r m path h hinv kv hkv
    rcases mem_routerInsert _ _ _ _ kv hkv with h1 | h2
    · rw [h1]
      by_cases he : String.mk (trimEndChar '/' path.data) = ""
      · rw [if_pos he]
        exact Or.inl rfl
      · rw [if_neg he]
        exact Or.inr (trimEnd_no_trailing path.data)
    · exact hinv kv h2
  · intro r m path h kv hkv
    rcases mem_routerInsert _ _ _ _ kv hkv with h1 | h2
    · refine Or.inr ?_
      rw [h1]
      by_cases he : String.mk (trimEndChar '/' path.data) = ""
      · rw [if_pos he]
        exact ⟨by decide, Or.inl rfl⟩
      · rw [if_neg he]
        exact ⟨he, Or.inr (trimEnd_no_trailing path.data)⟩
    · exact Or.inl h2
  · intro r pre sub hinv kv hkv
    rcases mem_mountFold _ _ _ _ kv hkv with ⟨k', h1⟩ | h2
    · rw [h1]
      exact Or.inr (trimEnd_no_trailing (pre ++ k').data)
    · exact hinv kv h2

/-- Witness for the amended C6: registering `/x/` (trailing slash) on a
fresh router preserves the normalized-key invariant. -/
theorem c6_key_normalization_witness :
    routerInv (Router.add Router.mkNew Method.GET "/x/" c6Handler) := by
  have h := c6_key_normalization
  exact h.2.1 Router.mkNew Method.GET "/x/" c6Handler h.1

/-! ## Query-string parsing claims (claim C7) -/

/-- C7 counterexample: `parse_query` uses `pair.split('=')` and keeps only
the first two pieces, so for `a=b=c` the value is `"b"`, not everything
after the first `=` (`"b=c"`) as the claim states. -/
theorem c7_query_counterexample :
    parseQuery "a=b=c" = [("a", "b")] ∧ parseQuery "a=b=c" ≠ [("a", "b=c")] :=
  ⟨rfl, by decide⟩

/-- C7 (amended): the parser splits the raw query on `&`, drops empty
segments, and splits each remaining pair on `=`: the key is the text before
the first `=` and the value the text between the first and second `=` (text
after a second `=` is discarded); a pair with no `=` yields the key with an
empty value. -/
theorem c7_query_parsing :
    (∀ k : List Char, '=' ∉ k → parsePair k = (String.mk k, "")) ∧
    (∀ k v : List Char, '=' ∉ k → '=' ∉ v →
      parsePair (k ++ '=' :: v) = (String.mk k, String.mk v)) ∧
    (∀ k v rest : List Char, '=' ∉ k → '=' ∉ v →
      parsePair (k ++ '=' :: v ++ '=' :: rest) = (String.mk k, String.mk v)) ∧
    (∀ q : String, parseQuery (String.mk ('&' :: q.data)) = parseQuery q) := by
  refine ⟨?_, ?_, ?_, ?_⟩
  · intro k h
    simp [parsePair, splitChar_not_elem _ _ h]
  · intro k v hk hv
    simp [parsePair, splitChar_append_sep _ _ _ hk, splitChar_not_elem _ _ hv]
  · intro k v rest hk hv
    simp [parsePair, splitChar_append_sep _ _ _ hk,
      splitChar_append_sep _ _ _ hv]
  · intro q
    simp [parseQuery, splitChar]

/-- Witness for the amended C7 at concrete pairs and query strings. -/
theorem c7_query_parsing_witness :
    parsePair ['a'] = ("a", "") ∧
    parsePair ['a', '=', 'b'] = ("a", "b") ∧
    parsePair ['a', '=', 'b', '=', 'c'] = ("a", "b") ∧
    parseQuery "&a=1" = parseQuery "a=1" := by
  have h := c7_query_parsing
  refine ⟨h.1 ['a'] (by decide), ?_, ?_, ?_⟩
  · exact h.2.1 ['a'] ['b'] (by decide) (by decide)
  · exact h.2.2.1 ['a'] ['b'] ['c'] (by decide) (by decide)
  · exact h.2.2.2 "a=1"

/-! ## JSON values and serialization (serde_json as used by the repo) -/

/-- `serde_json::Value`, restricted to the variants this codebase produces
from form decoding and error formatting: strings, (status) numbers, arrays
and objects. An object is an association list; serde_json's map is a
`BTreeMap`, and every object built below lists its keys in sorted order, so
serialization order coincides. -/
inductive JValue where
  | str (s : String)
  | num (n : Nat)
  | arr (xs : List JValue)
  | obj (fs : List (String × JValue))

/-- Lowercase hexadecimal digit, as serde_json's `\u00XX` escapes use. -/
def hexDigitChar (n : Nat) : Char :=
  if n < 10 then Char.ofNat (48 + n) else Char.ofNat (87 + n)

/-- serde_json's string-escaping: `"` and `\` get a backslash, the named
control characters use their short forms, the remaining control characters
use `\u00XX`, everything else is copied verbatim. -/
def jsonEscapeChar (c : Char) : List Char :=
  if c = '"' then ['\\', '"']
  else if c = '\\' then ['\\', '\\']
  else if c.toNat < 32 then
    if c.toNat = 8 then ['\\', 'b']
    else if c.toNat = 9 then ['\\', 't']
    else if c.toNat = 10 then ['\\', 'n']
    else if c.toNat = 12 then ['\\', 'f']
    else if c.toNat = 13 then ['\\', 'r']
    else ['\\', 'u', '0', '0', hexDigitChar (c.toNat / 16),
      hexDigitChar (c.toNat % 16)]
  else [c]

/-- Escape a whole string. -/
def jsonEscapeStr (s : String) : String :=
  String.mk (s.data.foldr (fun c acc => jsonEscapeChar c ++ acc) [])

mutual

/-- `serde_json::to_string` (compact form) on the modelled values. -/
def renderJ : JValue → String
  | .str s => "\"" ++ jsonEscapeStr s ++ "\""
  | .num n => Nat.repr n
  | .arr xs => "[" ++ renderArr xs ++ "]"
  | .obj fs => "\x7b" ++ renderObj fs ++ "\x7d"

/-- Comma-separated array elements. -/
def renderArr : List JValue → String
  | [] => ""
  | [x] => renderJ x
  | x :: xs => renderJ x ++ "," ++ renderArr xs

/-- Comma-separated `"key":value` fields. -/
def renderObj : List (String × JValue) → String
  | [] => ""
  | [(k, v)] => "\"" ++ jsonEscapeStr k ++ "\":" ++ renderJ v
  | (k, v) :: fs =>
    "\"" ++ jsonEscapeStr k ++ "\":" ++ renderJ v ++ "," ++ renderObj fs

end

/-- `Response::json` (src/http/response.rs): serialize, set the
`Content-Type` header, set the body. Serialization of the values built in
this file cannot fail, so the `Result` wrapper is dropped. -/
def Response.json (r : Response) (v : JValue) : Response :=
  { r with
    headers := alInsert "Content-Type" "application/json" r.headers
    body := renderJ v }

/-- `Response::error` (src/http/response.rs): `Response::new(status)` then
`.json(json!({"error": {"message": msg, "status": status}}))`. -/
def Response.error (err : ServerError) : Response :=
  Response.json (Response.mkNew err.statusCode)
    (JValue.obj [("error", JValue.obj
      [("message", JValue.str err.display),
       ("status", JValue.num err.statusCode)])])

/-- C8: the wire-status mapping of every `ServerError` variant is exactly the
claimed table, and the default formatter `Response::error` produces a
response with that status, a `Content-Type: application/json` header, and
the compact JSON body `{"error":{"message":<display>,"status":<status>}}`. -/
theorem c8_error_status_and_format :
    (∀ m, (ServerError.BadRequest m).statusCode = 400) ∧
    (∀ m, (ServerError.Unauthorized m).statusCode = 401) ∧
    (∀ m, (ServerError.Forbidden m).statusCode = 403) ∧
    ServerError.NotFound.statusCode = 404 ∧
    (∀ m, (ServerError.Conflict m).statusCode = 409) ∧
    (∀ m, (ServerError.ParseError m).statusCode = 422) ∧
    (∀ m, (ServerError.ValidationError m).statusCode = 422) ∧
    ServerError.TooManyRequests.statusCode = 429 ∧
    (∀ m, (ServerError.IoError m).statusCode = 500) ∧
    (∀ m, (ServerError.InternalError m).statusCode = 500) ∧
    (∀ m, (ServerError.PanicError m).statusCode = 500) ∧
    (∀ err : ServerError,
      (Response.error err).status = err.statusCode ∧
      alFind "Content-Type" (Response.error err).headers =
        some "application/json" ∧
      (Response.error err).body =
        "\x7b\"error\":\x7b\"message\":\"" ++ jsonEscapeStr err.display ++
          "\",\"status\":" ++ Nat.repr err.statusCode ++ "\x7d\x7d") := by
  refine ⟨fun _ => rfl, fun _ => rfl, fun _ => rfl, rfl, fun _ => rfl,
    fun _ => rfl, fun _ => rfl, rfl, fun _ => rfl, fun _ => rfl, fun _ => rfl,
    ?_⟩
  intro err
  refine ⟨rfl, rfl, ?_⟩
  show renderJ (JValue.obj [("error", JValue.obj
    [("message", JValue.str err.display),
     ("status", JValue.num err.statusCode)])]) = _
  have h1 : jsonEscapeStr "error" = "error" := rfl
  have h2 : jsonEscapeStr "message" = "message" := rfl
  have h3 : jsonEscapeStr "status" = "status" := rfl
  simp only [renderJ, renderObj, h1, h2, h3]
  apply String.ext
  simp [String.data_append]

/-! ## Bracket-notation body decoding (src/http/request.rs, claim C9) -/

/-- `str::parse::<usize>`: optional leading `+`, at least one ASCII digit,
and the value must fit in 64 bits. -/
def parseUsize (s : List Char) : Option Nat :=
  let digits :=
    match s with
    | '+' :: rest => rest
    | _ => s
  if digits = [] then none
  else if digits.all (fun c => c.isDigit) then
    let n := digits.foldl (fun acc c => 10 * acc + (c.toNat - 48)) 0
    if n < 2 ^ 64 then some n else none
  else none

/-- `key.ends_with("[]")`. -/
def endsWithBrackets (l : List Char) : Bool :=
  match l.reverse with
  | ']' :: '[' :: _ => true
  | _ => false

/-- The key decomposition of `Body::set_nested_value`: split the key on `[`
and `]`, drop empty pieces, tag each piece with "parses as usize", and
append `("", true)` when the key ends with `[]` (only a TRAILING empty
bracket survives; interior `[]` pairs vanish with the empty pieces). -/
def parseKeyParts (key : String) : List (String × Bool) :=
  let raw := (splitPred (fun c => c = '[' || c = ']') key.data).filter (· ≠ [])
  let parts := raw.map (fun s => (String.mk s, (parseUsize s).isSome))
  if endsWithBrackets key.data then parts ++ [("", true)] else parts

/-- `while vec.len() <= idx { vec.push(Value::Object(Map::new())) }`. -/
def growArr (vec : List JValue) (idx : Nat) : List JValue :=
  vec ++ List.replicate (idx + 1 - vec.length) (JValue.obj [])

/-- `set_value_recursive(current, parts, index, value)` with the remaining
parts `parts.drop index` passed explicitly and `prev = parts[index-1].0`
(the Object-with-array-index branch reads `parts[index - 1]`). -/
def setValueRec (prev : String) (cur : JValue) (parts : List (String × Bool))
    (v : JValue) : JValue :=
  match parts with
  | [] => v
  | (part, isIdx) :: rest =>
    match cur with
    | .obj m =>
      if isIdx then
        match (alFind prev m).getD (JValue.arr []) with
        | .arr vec =>
          if part = "" then
            match rest with
            | [] => .obj (alInsert prev (JValue.arr (vec ++ [v])) m)
            | _ => .obj (alInsert prev
                (JValue.arr (vec ++ [setValueRec part (JValue.obj []) rest v])) m)
          else
            let idx := (parseUsize part.data).getD 0
            let grown := growArr vec idx
            match rest with
            | [] => .obj (alInsert prev (JValue.arr (grown.set idx v)) m)
            | _ => .obj (alInsert prev
                (JValue.arr (grown.set idx
                  (setValueRec part (grown.getD idx (JValue.obj [])) rest v))) m)
        | _ => .obj m
      else
        let dflt : JValue :=
          match rest with
          | (_, nextIsIdx) :: _ =>
            if nextIsIdx then JValue.arr [] else JValue.obj []
          | [] => v
        .obj (alInsert part (setValueRec part ((alFind part m).getD dflt) rest v) m)
    | .arr vec =>
      if part = "" then
        match rest with
        | [] => .arr (vec ++ [v])
        | _ => .arr (vec ++ [setValueRec part (JValue.obj []) rest v])
      else
        let idx := (parseUsize part.data).getD 0
        let grown := growArr vec idx
        match rest with
        | [] => .arr (grown.set idx v)
        | _ => .arr (grown.set idx
            (setValueRec part (grown.getD idx (JValue.obj [])) rest v))
    | other => other

/-- `Body::set_nested_value` (src/http/request.rs): empty keys and
bracket-only keys are ignored; otherwise the root entry is created (array
when the second part is an index, object otherwise) and the recursion runs
from index 1 with the root key as `prev`. -/
def setNestedValue (json : List (String × JValue)) (key : String) (v : JValue) :
    List (String × JValue) :=
  if key.data = [] then json
  else
    match parseKeyParts key with
    | [] => json
    | (rootKey, _) :: restParts =>
      let dflt : JValue :=
        match restParts with
        | (_, b) :: _ => if b then JValue.arr [] else JValue.obj []
        | [] => JValue.obj []
      alInsert rootKey
        (setValueRec rootKey ((alFind rootKey json).getD dflt) restParts v)
        json

/-- Hex digit value for percent decoding. -/
def hexVal (c : Char) : Option Nat :=
  if c.isDigit then some (c.toNat - 48)
  else if 'a' ≤ c && c ≤ 'f' then some (c.toNat - 87)
  else if 'A' ≤ c && c ≤ 'F' then some (c.toNat - 55)
  else none

/-- `urlencoding::decode`, byte-for-byte on the modelled characters: a `%`
followed by two hex digits becomes that byte, anything else is copied (the
crate's UTF-8 re-validation is elided — the decoded bytes are kept as
characters, which coincides for the ASCII inputs of the claims). -/
def pctDecode : List Char → List Char
  | [] => []
  | '%' :: h1 :: h2 :: rest =>
    match hexVal h1, hexVal h2 with
    | some a, some b => Char.ofNat (16 * a + b) :: pctDecode rest
    | _, _ => '%' :: pctDecode (h1 :: h2 :: rest)
  | c :: rest => c :: pctDecode rest

/-- `Body::parse_urlencoded` (src/http/request.rs): split the body on `&`,
keep only pairs containing `=` (`split_once`), percent-decode key and value,
and thread each pair through `set_nested_value`. -/
def parseUrlencoded (data : String) : List (String × JValue) :=
  (splitChar '&' data.data).foldl
    (fun m pair =>
      match splitOnceChar '=' pair with
      | some kv =>
        setNestedValue m (String.mk (pctDecode kv.1))
          (JValue.str (String.mk (pctDecode kv.2)))
      | none => m)
    []

/-- C9 counterexample: a NON-trailing empty bracket does not append an array
element — it is dropped from the key entirely. Decoding `a[][b]=1` yields
`{a: {b: "1"}}`, not the `{a: [{b: "1"}]}` that "an empty bracket appends a
new element" would require. -/
theorem c9_bracket_counterexample :
    parseUrlencoded "a[][b]=1" =
      [("a", JValue.obj [("b", JValue.str "1")])] ∧
    parseUrlencoded "a[][b]=1" ≠
      [("a", JValue.arr [JValue.obj [("b", JValue.str "1")]])] := by
  refine ⟨rfl, ?_⟩
  intro h
  have h2 : [("a", JValue.obj [("b", JValue.str "1")])] =
      [("a", JValue.arr [JValue.obj [("b", JValue.str "1")]])] := h
  injection h2 with h3 _
  injection h3 with _ h4
  cases h4

/-- C9 (amended): decoding `a[b][]=1&a[b][]=2` yields `{a: {b: ["1","2"]}}`;
a numeric bracket segment addresses that array index, growing the array with
placeholder empty objects; a TRAILING empty bracket appends a new element;
a missing intermediate container is created as an array when the next
segment is an index and as a map otherwise; but only a trailing empty
bracket survives key parsing — interior empty brackets are dropped. -/
theorem c9_bracket_resolution :
    parseUrlencoded "a[b][]=1&a[b][]=2" =
      [("a", JValue.obj [("b", JValue.arr [JValue.str "1", JValue.str "2"])])] ∧
    (∀ (prev : String) (vec : List JValue) (v : JValue),
      setValueRec prev (JValue.arr vec) [("", true)] v =
        JValue.arr (vec ++ [v])) ∧
    (∀ (prev part : String) (n : Nat) (vec : List JValue) (v : JValue),
      parseUsize part.data = some n →
      setValueRec prev (JValue.arr vec) [(part, true)] v =
        JValue.arr ((vec ++ List.replicate (n + 1 - vec.length)
          (JValue.obj [])).set n v)) ∧
    (∀ (prev part p2 : String) (b2 : Bool) (rest : List (String × Bool))
       (m : List (String × JValue)) (v : JValue),
      alFind part m = none →
      setValueRec prev (JValue.obj m) ((part, false) :: (p2, b2) :: rest) v =
        JValue.obj (alInsert part
          (setValueRec part (if b2 then JValue.arr [] else JValue.obj [])
            ((p2, b2) :: rest) v) m)) ∧
    (∀ (key : String) (pr : String × Bool),
      pr ∈ (parseKeyParts key).dropLast → pr.1 ≠ "") := by
  refine ⟨rfl, fun _ _ _ => rfl, ?_, ?_, ?_⟩
  · intro prev part n vec v h
    have hne : part ≠ "" := by
      intro e
      subst e
      exact Option.noConfusion h
    simp [setValueRec, hne, h, growArr]
  · intro prev part p2 b2 rest m v hfind
    simp [setValueRec, hfind]
  · intro key pr hpr
    have hparts : ∀ q ∈ ((splitPred (fun c => c = '[' || c = ']')
        key.data).filter (· ≠ [])).map
          (fun s => (String.mk s, (parseUsize s).isSome)), q.1 ≠ "" := by
      intro q hq
      obtain ⟨s, hs, rfl⟩ := List.mem_map.mp hq
      have hs' : s ≠ [] := by
        have hf := List.of_mem_filter hs
        simpa using hf
      intro e
      apply hs'
      have hdata : s = "".data := congrArg String.data e
      simpa using hdata
    by_cases hb : endsWithBrackets key.data
    · rw [parseKeyParts, if_pos hb, List.dropLast_concat] at hpr
      exact hparts pr hpr
    · rw [parseKeyParts, if_neg hb] at hpr
      exact hparts pr (List.dropLast_subset _ hpr)

/-- Witness for the amended C9 at concrete inputs: a trailing `[]` appends,
`a[2]` grows the array and sets index 2, a fresh intermediate key before an
index segment becomes an array, and the parsed parts of `a[][b]` keep only
non-empty names before the last position. -/
theorem c9_bracket_resolution_witness :
    setValueRec "a" (JValue.arr []) [("", true)] (JValue.str "x") =
      JValue.arr [JValue.str "x"] ∧
    setValueRec "a" (JValue.arr []) [("2", true)] (JValue.str "v") =
      JValue.arr (([] ++ List.replicate (2 + 1 - List.length ([] : List JValue))
        (JValue.obj [])).set 2 (JValue.str "v")) ∧
    setValueRec "a" (JValue.obj []) [("b", false), ("", true)] (JValue.str "1") =
      JValue.obj (alInsert "b"
        (setValueRec "b" (JValue.arr []) [("", true)] (JValue.str "1")) []) ∧
    ("a", false).1 ≠ "" := by
  have h := c9_bracket_resolution
  refine ⟨h.2.1 "a" [] (JValue.str "x"), ?_, ?_, ?_⟩
  · exact h.2.2.1 "a" "2" 2 [] (JValue.str "v") rfl
  · exact h.2.2.2.1 "a" "b" "" true [] [] (JValue.str "1") rfl
  · exact h.2.2.2.2 "a[][b]" ("a", false) (by decide)

/-! ## Multipart body splitting (src/http/request.rs, claim C10) -/

/-- `Body::find_subsequence`:
`haystack.windows(needle.len()).position(|w| w == needle)` — the first
offset where the needle occurs; `none` when the haystack is shorter than
the needle. (Rust's `windows(0)` panics; this model returns `some 0` for an
empty needle, a case `split_body` never produces since its patterns start
with `\r\n`.) -/
def findSubseq (pat : List Char) (l : List Char) : Option Nat :=
  if pat.length ≤ l.length then
    if l.take pat.length = pat then some 0
    else
      match l with
      | [] => none
      | _ :: t => (findSubseq pat t).map (· + 1)
  else none

theorem findSubseq_bound (pat : List Char) :
    ∀ (l : List Char) (pos : Nat), findSubseq pat l = some pos →
      pos + pat.length ≤ l.length := by
  intro l
  induction l with
  | nil =>
    intro pos h
    rw [findSubseq] at h
    by_cases hle : pat.length ≤ List.length ([] : List Char)
    · rw [if_pos hle] at h
      by_cases ht : List.take pat.length ([] : List Char) = pat
      · rw [if_pos ht] at h
        injection h with h0
        omega
      · rw [if_neg ht] at h
        cases h
    · rw [if_neg hle] at h
      cases h
  | cons c t ih =>
    intro pos h
    rw [findSubseq] at h
    by_cases hle : pat.length ≤ (c :: t).length
    · rw [if_pos hle] at h
      by_cases ht : (c :: t).take pat.length = pat
      · rw [if_pos ht] at h
        injection h with h0
        omega
      · rw [if_neg ht] at h
        rcases Option.map_eq_some'.mp h with ⟨p', hp', rfl⟩
        have := ih p' hp'
        simp only [List.length_cons]
        omega
    · rw [if_neg hle] at h
      cases h

/-- The `while let Some(pos) = find_subsequence(&body[start..], &pattern)`
loop of `Body::split_body`, with the pattern split as `p0 :: prest` (it is
never empty: it starts with `\r\n`). Returns the final `start` and the
accumulated parts. The `break` fires when the terminal delimiter follows
immediately. -/
def splitBodyLoop (body : List Char) (p0 : Char) (prest : List Char)
    (endPat : List Char) (start : Nat) (parts : List (List Char)) :
    Nat × List (List Char) :=
  match h : findSubseq (p0 :: prest) (body.drop start) with
  | none => (start, parts)
  | some pos =>
    let start' := start + pos + (p0 :: prest).length
    let parts' := parts ++ [(body.drop start).take pos]
    if start' + endPat.length ≤ body.length ∧
        (body.drop start').take endPat.length = endPat then
      (start', parts')
    else
      splitBodyLoop body p0 prest endPat start' parts'
termination_by body.length - start
decreasing_by
  have hb := findSubseq_bound (p0 :: prest) (body.drop start) pos h
  rw [List.length_drop] at hb
  simp only [List.length_cons] at hb ⊢
  omega

/-- `Body::split_body` (src/http/request.rs). `delim` is the `--boundary`
string; the in-part pattern is `\r\n{delim}\r\n` and the terminal pattern is
`\r\n{delim}--\r\n`. The final
`parts.push(&body[start..body.len() - end_pattern.len()])` performs a
`usize` subtraction and a range slice; the cases in which Rust panics
(underflow, or a range whose start exceeds its end) are made explicit as
`Except.error`. -/
def splitBody (body : List Char) (delim : List Char) :
    Except String (List (List Char)) :=
  let endPat : List Char := '\r' :: '\n' :: (delim ++ ['-', '-', '\r', '\n'])
  let res := splitBodyLoop body '\r' ('\n' :: (delim ++ ['\r', '\n'])) endPat 0 []
  let start := res.1
  let parts := res.2
  if start < body.length then
    if body.length < endPat.length then
      .error "panic: usize underflow in body.len() - end_pattern.len()"
    else if body.length - endPat.length < start then
      .error "panic: slice range starts after it ends"
    else
      .ok (parts ++ [(body.drop start).take (body.length - endPat.length - start)])
  else .ok parts

/-- `Body::extract_boundary`: find the `boundary=` parameter among the
`;`-separated pieces of the content type, trimming whitespace and quotes. -/
def extractBoundary (ct : String) : Option String :=
  ((splitChar ';' ct.data).findSome? (fun s =>
    stripPre "boundary=".data (trimSpaces s))).map
    (fun b => String.mk (trimChar '"' b))

/-- `str::starts_with` for the `multipart/form-data` gate in
`Body::form_data`. -/
def strStartsWith (s pre : String) : Bool :=
  (stripPre pre.data s.data).isSome

/-- C10: `Body::form_data` is NOT total — with content type
`multipart/form-data; boundary=X` (which passes the `starts_with` gate and
yields boundary `X`, so `split_body` runs with delimiter `--X`), the
one-byte body `x` reaches the final
`parts.push(&body[start..body.len() - end_pattern.len()])` with
`body.len() = 1 < 9 = end_pattern.len()`: the `usize` subtraction
underflows and Rust panics instead of returning `None`. -/
theorem c10_split_body_panic :
    strStartsWith "multipart/form-data; boundary=X" "multipart/form-data"
      = true ∧
    extractBoundary "multipart/form-data; boundary=X" = some "X" ∧
    splitBody "x".data "--X".data =
      .error "panic: usize underflow in body.len() - end_pattern.len()" := by
  refine ⟨rfl, rfl, ?_⟩
  have hloop : splitBodyLoop "x".data '\r' ('\n' :: ("--X".data ++ ['\r', '\n']))
      ('\r' :: '\n' :: ("--X".data ++ ['-', '-', '\r', '\n'])) 0 [] = (0, []) := by
    rw [splitBodyLoop]
    split
    · rfl
    · rename_i pos heq
      rw [(rfl : findSubseq ('\r' :: '\n' :: ("--X".data ++ ['\r', '\n']))
        (List.drop 0 "x".data) = none)] at heq
      cases heq
  simp only [splitBody, hloop]
  rfl
